import Mathlib

/-!
Verification development for the micardashboard ESMA register pipelines.

The repository contains two implementations of the change-detection and
publication machinery: the shared module pipeline/esma_common.py (used by
pipeline/non_compliant_pipeline.py) and a self-contained variant inside
pipeline/casps_pipeline.py.  Both are embedded below, together with the
row normalization of both pipelines, so that the behaviour of each can be
compared against the specification.
-/

set_option maxHeartbeats 1000000
set_option maxRecDepth 8192

namespace Micar

/-! ## Association list primitives

Python dicts and the sqlite pk-to-hash table are modelled as association
lists from keys to values; lookups return the first binding of a key.
-/

/-- First-match lookup in an association list, modelling a Python dict read
or a sqlite SELECT on a primary-key column. -/
def lookupKey {α : Type} (l : List (String × α)) (q : String) : Option α :=
  match l with
  | [] => none
  | e :: t => if e.1 = q then some e.2 else lookupKey t q

/-- Keys of an association list. -/
def keysOf {α : Type} (l : List (String × α)) : List String := l.map Prod.fst

/-- Drop every binding of a given key. -/
def removeKey {α : Type} (l : List (String × α)) (pk : String) : List (String × α) :=
  match l with
  | [] => []
  | e :: t => if e.1 = pk then removeKey t pk else e :: removeKey t pk

/-- Python dict assignment d[k] = v on a duplicate-free association list:
replace the binding in place when the key is present, append otherwise. -/
def setKey {α : Type} (l : List (String × α)) (k : String) (v : α) : List (String × α) :=
  match l with
  | [] => [(k, v)]
  | e :: t => if e.1 = k then (k, v) :: t else e :: setKey t k v

/-- Python dict.setdefault d.setdefault(k, v). -/
def setDefault {α : Type} (l : List (String × α)) (k : String) (v : α) : List (String × α) :=
  if (lookupKey l k).isSome then l else l ++ [(k, v)]

/-- The pk-to-hash table persisted in data/state.sqlite for one dataset. -/
abbrev StateTab := List (String × String)

/-! ## Change detection (diff_against_state)

Both esma_common.diff_against_state and casps_pipeline.diff_against_state
classify the current batch rows against the stored mapping in the same
way; they differ only in how the table is committed afterwards: the
esma_common version deletes the removed keys, the casps version does not.
The current batch is the list of (pk, hash) pairs of the canonical
records, in row order.
-/

/-- Set of keys of the current batch (the seen set in the source). -/
def seenKeys (batch : List (String × String)) : List String := batch.map Prod.fst

/-- Keys of batch rows whose pk is absent from the stored mapping;
translates the existing_hash is None branch of the diff loop. -/
def diffNew (st : StateTab) : List (String × String) → List String
  | [] => []
  | r :: t =>
    match lookupKey st r.1 with
    | none => r.1 :: diffNew st t
    | some _ => diffNew st t

/-- Keys of batch rows whose pk is stored with a different hash;
translates the existing_hash != record hash branch of the diff loop. -/
def diffUpdated (st : StateTab) : List (String × String) → List String
  | [] => []
  | r :: t =>
    match lookupKey st r.1 with
    | none => diffUpdated st t
    | some h => if h = r.2 then diffUpdated st t else r.1 :: diffUpdated st t

/-- Stored keys absent from a seen-key set, in stored order. -/
def removedOf (ks seen : List String) : List String :=
  match ks with
  | [] => []
  | k :: t => if k ∈ seen then removedOf t seen else k :: removedOf t seen

/-- Stored keys absent from the current batch;
translates removed = pk for pk in existing if pk not in seen. -/
def diffRemoved (st : StateTab) (batch : List (String × String)) : List String :=
  removedOf (keysOf st) (seenKeys batch)

/-- One INSERT OR REPLACE of a (pk, hash) row: sqlite drops any row that
conflicts on the primary key and inserts the new row. -/
def upsert (st : StateTab) (pk h : String) : StateTab :=
  removeKey st pk ++ [(pk, h)]

/-- The executemany INSERT OR REPLACE over all batch rows, in row order. -/
def upsertMany (st : StateTab) (batch : List (String × String)) : StateTab :=
  batch.foldl (fun s r => upsert s r.1 r.2) st

/-- DELETE FROM table WHERE pk = ? executed for each key of ks. -/
def deleteKeys (st : StateTab) (ks : List String) : StateTab :=
  match st with
  | [] => []
  | e :: t => if e.1 ∈ ks then deleteKeys t ks else e :: deleteKeys t ks

/-- Table contents after esma_common.diff_against_state commits: every
current row upserted, then every removed key deleted. -/
def esmaPostState (st : StateTab) (batch : List (String × String)) : StateTab :=
  deleteKeys (upsertMany st batch) (diffRemoved st batch)

/-- Table contents after casps_pipeline.diff_against_state commits: every
current row upserted; the removed keys are never deleted. -/
def caspsPostState (st : StateTab) (batch : List (String × String)) : StateTab :=
  upsertMany st batch

/-- Helper: first-some choice between two optional values. -/
def optOr {α : Type} (a b : Option α) : Option α :=
  match a with
  | some x => some x
  | none => b

/-! ## Metadata documents (esma_common.update_meta)

out/meta.json holds one cumulative JSON document.  Arrays and floats do
not occur in the metadata documents, so the JSON model omits them.
-/

/-- JSON-like values stored in the metadata document. -/
inductive JVal where
  | s (v : String)
  | i (v : Int)
  | b (v : Bool)
  | null
  | obj (fields : List (String × JVal))

/-- Python truthiness of a JSON-decoded value, as used by the expression
raw.get("source") or source. -/
def pyTruthy : JVal → Bool
  | .s v => !(v == "")
  | .i v => !(v == 0)
  | .b v => v
  | .null => false
  | .obj fs => !fs.isEmpty

/-- Python str() of a JSON-decoded value.  No claim exercises str() on a
nested object (the legacy source field is a string), so the object case is
abbreviated rather than reproducing the Python dict repr. -/
def pyToStr : JVal → String
  | .s v => v
  | .i v => toString v
  | .b v => if v then "True" else "False"
  | .null => "None"
  | .obj fs => "dict of " ++ toString fs.length ++ " entries"

/-- Key presence test, Python k in d. -/
def hasField (fs : List (String × JVal)) (k : String) : Bool :=
  (lookupKey fs k).isSome

/-- The metadata count fields whose top-level presence, together with a
source field, marks a legacy flat document in update_meta. -/
def legacyMarkers : List String := ["total_rows", "new_rows", "updated_rows", "removed_rows"]

/-- Detection of the legacy flat metadata format in update_meta. -/
def isLegacyFlat (fs : List (String × JVal)) : Bool :=
  hasField fs "source" && legacyMarkers.any (fun k => hasField fs k)

/-- The dataset name declared by a legacy document,
str(raw.get("source") or source). -/
def legacyName (fs : List (String × JVal)) (source : String) : String :=
  match lookupKey fs "source" with
  | some v => if pyTruthy v then pyToStr v else source
  | none => source

/-- A value kept by the update_meta load loop: a dict containing a
source field. -/
def isDatasetEntry : JVal → Bool
  | .obj g => hasField g "source"
  | _ => false

/-- The dict comprehension of the legacy migration: every field whose key
is neither the dataset name nor source, in order. -/
def dropKeys (fs : List (String × JVal)) (k1 k2 : String) : List (String × JVal) :=
  match fs with
  | [] => []
  | e :: t => if e.1 = k1 ∨ e.1 = k2 then dropKeys t k1 k2 else e :: dropKeys t k1 k2

/-- The load loop of update_meta: keep every top-level field whose value
is a dict containing a source field. -/
def entryFold (fs base : List (String × JVal)) : List (String × JVal) :=
  fs.foldl (fun acc e => if isDatasetEntry e.2 then setKey acc e.1 e.2 else acc) base

/-- The dataset metadata after update_meta stamps it:
metadata = {**metadata, "source": source} followed by
metadata.setdefault("generated_at", now). -/
def prepareMeta (source : String) (metadata : List (String × JVal)) (nowTs : String) :
    List (String × JVal) :=
  setDefault (setKey metadata "source" (JVal.s source)) "generated_at" (JVal.s nowTs)

/-- esma_common.update_meta: merge one dataset's run metadata into the
cumulative document.  raw is the JSON parse of the existing out/meta.json
(none when the file is missing; a decode error yields some (obj [])), and
nowTs models datetime.now for the generated_at default.  Returns the
merged document that is then dumped and atomically written. -/
def updateMeta (source : String) (metadata : List (String × JVal))
    (raw : Option JVal) (nowTs : String) : JVal :=
  let md := prepareMeta source metadata nowTs
  let existing : List (String × JVal) :=
    match raw with
    | some (JVal.obj fs) =>
      let base :=
        if isLegacyFlat fs then
          let dn := legacyName fs source
          [(dn, JVal.obj (setKey (dropKeys fs dn "source") "source" (JVal.s dn)))]
        else []
      entryFold fs base
    | _ => []
  JVal.obj (setKey existing source (JVal.obj md))

/-- Entry of a metadata document under a dataset name. -/
def metaEntry (doc : JVal) (k : String) : Option JVal :=
  match doc with
  | .obj fs => lookupKey fs k
  | _ => none

/-! ## File system model and the two publishers

The output area is modelled as a map from path to full file content.
Writes are expressed as operation traces so that interrupted executions
can be examined: esma_common.atomic_write materializes the content at a
temporary path and then moves it into place with one rename, while
casps_pipeline.write_outputs writes each artifact directly at its
destination.
-/

/-- File system: association list from path to full file content. -/
abbrev FS := List (String × String)

/-- Content of a file, none when the file does not exist. -/
def readFile (fs : FS) (p : String) : Option String := lookupKey fs p

/-- Complete write of a file (create or overwrite). -/
def writeFs (fs : FS) (p d : String) : FS := setKey fs p d

/-- File operations performed on the output area. -/
inductive FsOp where
  | wfile (p d : String)
  | rename (src dst : String)

/-- Effect of one completed operation; Path.replace moves the source file
onto the destination in one step. -/
def applyOp (fs : FS) : FsOp → FS
  | .wfile p d => writeFs fs p d
  | .rename src dst =>
    match readFile fs src with
    | some c => writeFs (removeKey fs src) dst c
    | none => fs

/-- Effect of a completed sequence of operations. -/
def applyOps (fs : FS) (ops : List FsOp) : FS := ops.foldl applyOp fs

/-- esma_common.atomic_write as an operation trace: write the full data to
path + ".tmp", then rename the temporary file onto the destination. -/
def atomicWriteOps (p d : String) : List FsOp :=
  [.wfile (p ++ ".tmp") d, .rename (p ++ ".tmp") p]

/-- esma_common.atomic_write executed to completion. -/
def atomic_write (fs : FS) (p d : String) : FS := applyOps fs (atomicWriteOps p d)

/-- A run of an operation trace interrupted during operation n: the first
n operations complete, then an in-progress plain file write leaves the
target holding only the first k characters of its data, while a rename is
one atomic step and an interrupted rename has no effect. -/
def interruptAt (fs : FS) (ops : List FsOp) (n k : Nat) : FS :=
  let g := applyOps fs (ops.take n)
  match ops.get? n with
  | some (.wfile p d) => writeFs g p (d.take k)
  | some (.rename _ _) => g
  | none => g

/-! ## esma_common.write_dataset -/

/-- Export view handed to esma_common.write_dataset: the header and rows
of the public columns of the dataset. -/
structure ExportView where
  header : List String
  rows : List (List String)

/-- CSV rendering of the export view, modelling DataFrame.to_csv for cell
values without quoting-relevant characters. -/
def csvText (v : ExportView) : String :=
  String.intercalate "," v.header ++ "\n"
    ++ String.join (v.rows.map (fun r => String.intercalate "," r ++ "\n"))

/-- Row-level changes between snapshots, as carried by both pipelines. -/
structure DiffResult where
  new : List String
  updated : List String
  removed : List String

/-- The delta manifest written by both publishers: a pk,action header and
one line per changed key, new actions first, then update, then remove. -/
def deltaCsv (diff : DiffResult) : String :=
  "pk,action\n"
    ++ String.join (diff.new.map (fun pk => pk ++ ",new\n"))
    ++ String.join (diff.updated.map (fun pk => pk ++ ",update\n"))
    ++ String.join (diff.removed.map (fun pk => pk ++ ",remove\n"))

/-- Backup destination of one output file inside the timestamped backup
directory of esma_common.backup_existing_outputs. -/
def backupPath (dataset ts name : String) : String :=
  "data/backups/" ++ dataset ++ "/" ++ ts ++ "/" ++ name

/-- esma_common.backup_existing_outputs: copy each currently existing
output file of the dataset to the timestamped backup location.  Directory
creation, and removal of a backup directory that stayed empty, have no
counterpart in the path-to-content model. -/
def backupExistingOutputs (fs : FS) (dataset ts : String) : FS :=
  [dataset ++ ".csv", dataset ++ ".json", dataset ++ "_delta.csv"].foldl
    (fun g name =>
      match readFile g ("out/" ++ name) with
      | some c => writeFs g (backupPath dataset ts name) c
      | none => g) fs

/-- Python dict.update(other): set every binding of other in order. -/
def updateEntries (base other : List (String × JVal)) : List (String × JVal) :=
  other.foldl (fun m e => setKey m e.1 e.2) base

/-- esma_common.write_dataset.  The JSON renderings of the export view and
of the metadata document are parameters standing for DataFrame.to_json
and json.dumps; metaRaw is the JSON parse of the existing out/meta.json
that update_meta reads back, nowTs the generated_at timestamp and ts the
backup timestamp.  Returns the resulting file system together with the
message of the raised ValueError, if any. -/
def write_dataset (renderJson : ExportView → String) (renderMeta : JVal → String)
    (metaRaw : Option JVal) (nowTs ts : String) (fs : FS) (name : String)
    (view : ExportView) (diff : DiffResult) (metaExtra : List (String × JVal)) :
    FS × Option String :=
  if view.rows.isEmpty then
    (fs, some (name ++ " dataset is empty; refusing to overwrite outputs"))
  else
    let fs1 := backupExistingOutputs fs name ts
    let fs2 := atomic_write fs1 ("out/" ++ name ++ ".csv") (csvText view)
    let fs3 := atomic_write fs2 ("out/" ++ name ++ ".json") (renderJson view)
    let fs4 := atomic_write fs3 ("out/" ++ name ++ "_delta.csv") (deltaCsv diff)
    let meta := updateEntries
      [("total_rows", JVal.i view.rows.length),
        ("new_rows", JVal.i diff.new.length),
        ("updated_rows", JVal.i diff.updated.length),
        ("removed_rows", JVal.i diff.removed.length)] metaExtra
    (atomic_write fs4 "out/meta.json" (renderMeta (updateMeta name meta metaRaw nowTs)),
      none)

/-! ## casps_pipeline.write_outputs -/

/-- One normalized CASP record as selected and renamed for export by
casps_pipeline.write_outputs.  The three optional date columns are
modelled as present (parse_date yields None for unparseable dates,
rendered as an empty CSV cell). -/
structure CaspExportRow where
  pk : String
  competent_authority : String
  home_member_state : String
  lei_name : String
  website : String
  service_codes : String
  notification_date : Option String
  end_date : Option String
  lastupdate : Option String

/-- CSV cell for an optional value: missing dates render as empty. -/
def csvCell : Option String → String
  | none => ""
  | some s => s

/-- Header line of out/casps.csv after the export renaming. -/
def caspCsvHeader : String :=
  "pk,competent_authority,home_member_state,lei_name,website,service_codes,"
    ++ "ac_authorisation_notification_date,ac_authorisation_end_date,ac_lastupdate"

/-- CSV rendering of the casps export table. -/
def caspCsvText (rows : List CaspExportRow) : String :=
  caspCsvHeader ++ "\n"
    ++ String.join (rows.map (fun r =>
      String.intercalate "," [r.pk, r.competent_authority, r.home_member_state,
        r.lei_name, r.website, r.service_codes, csvCell r.notification_date,
        csvCell r.end_date, csvCell r.lastupdate] ++ "\n"))

/-- The flat metadata document written by casps_pipeline.write_outputs,
replacing out/meta.json wholesale. -/
def caspMeta (now : String) (rows : List CaspExportRow) (diff : DiffResult) : JVal :=
  JVal.obj [("generated_at", JVal.s now), ("source", JVal.s "casps"),
    ("total_rows", JVal.i rows.length), ("new_rows", JVal.i diff.new.length),
    ("updated_rows", JVal.i diff.updated.length),
    ("removed_rows", JVal.i diff.removed.length)]

/-- casps_pipeline.write_outputs as an operation trace: each artifact is
written directly at its destination path, with no temporary file, no
rename, no backup and no empty-view guard. -/
def writeOutputsOps (renderJson : List CaspExportRow → String)
    (renderMeta : JVal → String) (now : String)
    (rows : List CaspExportRow) (diff : DiffResult) : List FsOp :=
  [.wfile "out/casps.csv" (caspCsvText rows),
    .wfile "out/casps.json" (renderJson rows),
    .wfile "out/casps_delta.csv" (deltaCsv diff),
    .wfile "out/meta.json" (renderMeta (caspMeta now rows diff))]

/-- casps_pipeline.write_outputs executed to completion; it performs no
emptiness check and raises no error. -/
def write_outputs (renderJson : List CaspExportRow → String)
    (renderMeta : JVal → String) (now : String) (fs : FS)
    (rows : List CaspExportRow) (diff : DiffResult) : FS × Option String :=
  (applyOps fs (writeOutputsOps renderJson renderMeta now rows diff), none)

/-! ## Python string primitives

Python str.strip() removes leading and trailing whitespace; str.upper()
and str.lower() are modelled by String.toUpper and String.toLower, which
agree with Python on the ASCII register data.
-/

/-- Drop leading characters satisfying p. -/
def dropLeading (p : Char → Bool) : List Char → List Char
  | [] => []
  | c :: t => if p c then dropLeading p t else c :: t

/-- Drop trailing characters satisfying p. -/
def dropTrailing (p : Char → Bool) : List Char → List Char
  | [] => []
  | c :: t =>
    match dropTrailing p t with
    | [] => if p c then [] else [c]
    | r => c :: r

/-- Python str.strip(). -/
def pyStrip (s : String) : String :=
  String.mk (dropTrailing Char.isWhitespace (dropLeading Char.isWhitespace s.data))

/-- Python str.upper(), agreeing with it on ASCII data. -/
def pyUpper (s : String) : String := String.mk (s.data.map Char.toUpper)

/-- Python str.lower(), agreeing with it on ASCII data. -/
def pyLower (s : String) : String := String.mk (s.data.map Char.toLower)

/-- astype(str) on one cell: a missing value (NaN) renders as the literal
string nan. -/
def pyStr : Option String → String
  | none => "nan"
  | some s => s

/-- str() of an optional value stored in a column after parse_date:
Python None renders as the string None. -/
def pyStrOptNone : Option String → String
  | none => "None"
  | some s => s

/-! ## Row fingerprinting (hash_row)

hash_row is textually identical in esma_common.py and casps_pipeline.py:
it feeds str(row.get(column, "")) for each listed column, in list order,
to one sha256 and returns the hex digest.
-/

/-- A canonical record viewed as a mapping from column name to the str()
of its cell value, as hash_row reads it. -/
abbrev Row := List (String × String)

/-- str(row.get(column, "")): the cell as a string, empty when the column
is absent from the row. -/
def rowGet (row : Row) (c : String) : String := (lookupKey row c).getD ""

/-- The byte stream hashed by hash_row: the listed columns' cells
concatenated in column-list order. -/
def hashInput (row : Row) (cols : List String) : String :=
  String.join (cols.map (rowGet row))

/-- hash_row: the hex digest of sha256 over hashInput.  The sha256 hex
digest is an arbitrary deterministic function H of the hashed bytes. -/
def hash_row (H : String → String) (row : Row) (cols : List String) : String :=
  H (hashInput row cols)

/-- DATE_COLUMNS of casps_pipeline. -/
def DATE_COLUMNS : List String :=
  ["ac_authorisation_notification_date", "ac_authorisation_end_date", "ac_lastupdate"]

/-- The business columns hashed for a casps row (the five canonical
fields plus the date columns, which are present in the register). -/
def caspBusinessCols : List String :=
  ["ae_competent_authority", "ae_home_member_state", "ae_lei_name", "ae_website",
    "ac_service_code_short"] ++ DATE_COLUMNS

/-- The business columns hashed for a non_compliant row. -/
def ncBusinessCols : List String :=
  ["ae_competent_authority", "ae_home_member_state", "ae_lei_name", "ae_website",
    "is_new_flag"]

/-! ## Country normalization -/

/-- The two-letter jurisdiction code table shared by both pipelines;
UK and GB both map to United Kingdom. -/
def COUNTRY_MAP : List (String × String) :=
  [("AT", "Austria"), ("BE", "Belgium"), ("BG", "Bulgaria"), ("HR", "Croatia"),
    ("CY", "Cyprus"), ("CZ", "Czech Republic"), ("DK", "Denmark"), ("EE", "Estonia"),
    ("FI", "Finland"), ("FR", "France"), ("DE", "Germany"), ("GR", "Greece"),
    ("HU", "Hungary"), ("IE", "Ireland"), ("IT", "Italy"), ("LV", "Latvia"),
    ("LT", "Lithuania"), ("LU", "Luxembourg"), ("MT", "Malta"), ("NL", "Netherlands"),
    ("PL", "Poland"), ("PT", "Portugal"), ("RO", "Romania"), ("SK", "Slovakia"),
    ("SI", "Slovenia"), ("ES", "Spain"), ("SE", "Sweden"), ("IS", "Iceland"),
    ("LI", "Liechtenstein"), ("NO", "Norway"), ("UK", "United Kingdom"),
    ("GB", "United Kingdom")]

/-- casps_pipeline country normalization applied to the stripped value:
COUNTRY_MAP.get(x.upper(), x). -/
def normCountryCasp (x : String) : String :=
  (lookupKey COUNTRY_MAP (pyUpper x)).getD x

/-- non_compliant_pipeline.normalise_country: spellings of a missing
value blank out, known codes map to the country name, anything else
passes through unchanged. -/
def normalise_country (value : String) : String :=
  if pyUpper value = "" ∨ pyUpper value = "NAN" ∨ pyUpper value = "NONE"
      ∨ pyUpper value = "NULL" then ""
  else (lookupKey COUNTRY_MAP (pyUpper value)).getD value

/-! ## Service codes (casps_pipeline.shorten_service_codes) -/

/-- SERVICE_CODE_MAP of casps_pipeline. -/
def SERVICE_CODE_MAP : List (String × String) :=
  [("a", "custody"), ("b", "trading platform"), ("c", "exchange funds"),
    ("d", "exchange crypto"), ("e", "execution"), ("f", "placing"),
    ("g", "RTO"), ("h", "advice"), ("i", "portfolio mgmt"), ("j", "transfer")]

/-- The case-insensitive regex match of shorten_service_codes: a leading
letter between a and j immediately followed by a period; yields the
lowercased letter as the code. -/
def matchServiceCode (part : String) : Option String :=
  match part.data with
  | c :: c2 :: _ =>
    if c2 = '.' ∧ 'a' ≤ c.toLower ∧ c.toLower ≤ 'j' then some (String.mk [c.toLower])
    else none
  | _ => none

/-- The loop body of shorten_service_codes for one nonempty stripped
part: a matched code is looked up in SERVICE_CODE_MAP with the stripped
part as fallback; an unmatched part is kept stripped. -/
def cleanPart (part : String) : String :=
  match matchServiceCode part with
  | some code => (lookupKey SERVICE_CODE_MAP code).getD (pyStrip part)
  | none => pyStrip part

/-- dict.fromkeys: drop later duplicates, keeping first occurrences in
order.  The accumulator holds the values already emitted. -/
def dedupFirstAux (seen : List String) : List String → List String
  | [] => []
  | x :: xs =>
    if x ∈ seen then dedupFirstAux seen xs else x :: dedupFirstAux (x :: seen) xs

/-- Order-preserving duplicate removal, list(dict.fromkeys(cleaned)). -/
def dedupFirst (l : List String) : List String := dedupFirstAux [] l

/-- casps_pipeline.shorten_service_codes on the str() of a cell; a
missing (NaN) or empty cell yields the empty string. -/
def shorten_service_codes (value : String) : String :=
  if value = "" then ""
  else
    String.intercalate " | " (dedupFirst
      ((((value.splitOn "|").map pyStrip).filter
        (fun part => decide (part ≠ ""))).map cleanPart))

/-- Modelled from the claim wording for comparison with the source: each
segment consisting of a leading character followed by a period is looked
up in the fixed code table and replaced by its label when recognized,
segments with unrecognized codes pass through as-is. -/
def specServiceLabel (seg : String) : String :=
  match seg.data with
  | c :: c2 :: _ =>
    if c2 = '.' then
      match lookupKey SERVICE_CODE_MAP (String.mk [c.toLower]) with
      | some label => label
      | none => seg
    else seg
  | _ => seg

/-- Modelled from the claim wording: the pipe-joined, order-preserving,
duplicate-free list of the labels of the nonempty trimmed segments. -/
def claimServiceValue (value : String) : String :=
  if value = "" then ""
  else
    String.intercalate " | " (dedupFirst
      ((((value.splitOn "|").map pyStrip).filter
        (fun seg => decide (seg ≠ ""))).map specServiceLabel))

/-! ## casps row normalization (normalize_casp_dataframe)

The row-level content of normalize_casp_dataframe: the shadow raw copies
and the untouched passthrough columns are omitted from the record because
neither the identity key nor the hash reads them (hash_row only reads the
listed business columns).  parseDate stands for parse_date (free-form
date parsing is not modelled), and H for the sha256 hex digest.
-/

/-- Raw CASP cells read by the normalization, already str()-converted by
astype(str) where the source applies it. -/
structure CaspRaw where
  competent_authority : String
  home_member_state : String
  lei_name : String
  website : String
  service_code : String
  notification_date : String
  end_date : String
  lastupdate : String

/-- A normalized CASP record with its identity key and content hash. -/
structure CaspCanon where
  competent_authority : String
  home_member_state : String
  lei_name : String
  website : String
  service_code_short : String
  notification_date : Option String
  end_date : Option String
  lastupdate : Option String
  pk : String
  hash : String

/-- The identity key built by both normalizations from the already
normalized columns: uppercased jurisdiction value, lowercased authority,
lowercased entity name, joined with the pipe delimiter. -/
def mkPk (state authority entity : String) : String :=
  pyUpper state ++ "|" ++ pyLower authority ++ "|" ++ pyLower entity

/-- normalize_casp_dataframe for one row. -/
def normalizeCaspRow (H : String → String) (parseDate : String → Option String)
    (r : CaspRaw) : CaspCanon :=
  let auth := pyStrip r.competent_authority
  let state := normCountryCasp (pyStrip r.home_member_state)
  let lei := pyStrip r.lei_name
  let web := pyStrip r.website
  let svc := shorten_service_codes r.service_code
  let nd := parseDate r.notification_date
  let ed := parseDate r.end_date
  let lu := parseDate r.lastupdate
  { competent_authority := auth, home_member_state := state, lei_name := lei,
    website := web, service_code_short := svc,
    notification_date := nd, end_date := ed, lastupdate := lu,
    pk := mkPk state auth lei,
    hash := hash_row H
      [("ae_competent_authority", auth), ("ae_home_member_state", state),
        ("ae_lei_name", lei), ("ae_website", web), ("ac_service_code_short", svc),
        ("ac_authorisation_notification_date", pyStrOptNone nd),
        ("ac_authorisation_end_date", pyStrOptNone ed),
        ("ac_lastupdate", pyStrOptNone lu)]
      caspBusinessCols }

/-! ## non_compliant row normalization (normalize_non_compliant_dataframe)

Each optional field holds the cell of the candidate column resolved by
pick_column (none models a NaN cell; a dataset with no candidate column
present resolves to the default, the cell some "").  column_1 is doubly
optional: the outer none models an absent column, in which case
is_new_flag is False.
-/

/-- Raw non_compliant cells as resolved by pick_column. -/
structure NCRaw where
  competent_authority : Option String
  home_member_state : Option String
  lei_name : Option String
  website : Option String
  column_1 : Option (Option String)

/-- A normalized non_compliant record with identity key and hash. -/
structure NCCanon where
  competent_authority : String
  home_member_state : String
  lei_name : String
  website : String
  is_new_flag : Bool
  pk : String
  hash : String

/-- The identity key the non_compliant normalization assigns to a row. -/
def ncPk (r : NCRaw) : String :=
  mkPk (normalise_country (pyStrip (pyStr r.home_member_state)))
    (pyStrip (pyStr r.competent_authority)) (pyStrip (pyStr r.lei_name))

/-- normalize_non_compliant_dataframe for one row: none when the row is
dropped by the empty-entity-name filter df[df["ae_lei_name"].astype(bool)]. -/
def normalize_non_compliant_row (H : String → String) (r : NCRaw) : Option NCCanon :=
  let auth := pyStrip (pyStr r.competent_authority)
  let state := normalise_country (pyStrip (pyStr r.home_member_state))
  let lei := pyStrip (pyStr r.lei_name)
  let web := pyStrip (pyStr r.website)
  let isNew := match r.column_1 with
    | some cell => pyLower (pyStrip (pyStr cell)) == "new"
    | none => false
  if lei = "" then none
  else some
    { competent_authority := auth, home_member_state := state, lei_name := lei,
      website := web, is_new_flag := isNew,
      pk := mkPk state auth lei,
      hash := hash_row H
        [("ae_competent_authority", auth), ("ae_home_member_state", state),
          ("ae_lei_name", lei), ("ae_website", web),
          ("is_new_flag", if isNew then "True" else "False")]
        ncBusinessCols }

end Micar

namespace Micar

/-! ## Lookup lemmas for the change-detection model -/

theorem lookupKey_eq_none_iff {α : Type} (l : List (String × α)) (q : String) :
    lookupKey l q = none ↔ q ∉ keysOf l := by
  induction l with
  | nil => simp [lookupKey, keysOf]
  | cons e t ih =>
    simp only [lookupKey, keysOf, List.map_cons, List.mem_cons]
    by_cases h : e.1 = q
    · simp only [if_pos h]
      constructor
      · intro hc; exact absurd hc (by simp)
      · intro hc; exact absurd (Or.inl h.symm) hc
    · simp only [h, if_false]
      rw [show (t.map Prod.fst) = keysOf t from rfl, ih]
      constructor
      · rintro hq (h1 | h2)
        · exact h h1.symm
        · exact hq h2
      · intro hq h2
        exact hq (Or.inr h2)

theorem lookupKey_isSome_iff {α : Type} (l : List (String × α)) (q : String) :
    (lookupKey l q).isSome ↔ q ∈ keysOf l := by
  cases hl : lookupKey l q with
  | none =>
    simp only [Option.isSome_none, Bool.false_eq_true, false_iff]
    exact (lookupKey_eq_none_iff l q).1 hl
  | some v =>
    simp only [Option.isSome_some, true_iff]
    by_contra hq
    rw [(lookupKey_eq_none_iff l q).2 hq] at hl
    exact Option.noConfusion hl

theorem lookupKey_of_mem_nodup {α : Type} (l : List (String × α)) (q : String) (v : α)
    (hnd : (keysOf l).Nodup) (hm : (q, v) ∈ l) : lookupKey l q = some v := by
  induction l with
  | nil => simp at hm
  | cons e t ih =>
    simp only [keysOf, List.map_cons, List.nodup_cons] at hnd
    rcases List.mem_cons.1 hm with he | ht
    · subst he; simp [lookupKey]
    · have hne : e.1 ≠ q := by
        intro h
        exact hnd.1 (h ▸ (List.mem_map_of_mem Prod.fst ht))
      simp only [lookupKey, hne, if_false]
      exact ih hnd.2 ht

theorem mem_of_lookupKey {α : Type} (l : List (String × α)) (q : String) (v : α)
    (h : lookupKey l q = some v) : (q, v) ∈ l := by
  induction l with
  | nil => simp [lookupKey] at h
  | cons e t ih =>
    by_cases he : e.1 = q
    · simp only [lookupKey, he, if_true, Option.some.injEq] at h
      subst h
      have : e = (q, e.2) := by
        cases e
        simp only [Prod.mk.injEq]
        exact ⟨he, trivial⟩
      rw [← this]
      exact List.mem_cons_self e t
    · simp only [lookupKey, he, if_false] at h
      exact List.mem_cons_of_mem _ (ih h)

theorem lookupKey_append {α : Type} (l1 l2 : List (String × α)) (q : String) :
    lookupKey (l1 ++ l2) q = optOr (lookupKey l1 q) (lookupKey l2 q) := by
  induction l1 with
  | nil => simp [lookupKey, optOr]
  | cons e t ih =>
    by_cases he : e.1 = q
    · simp [lookupKey, he, optOr]
    · simp [lookupKey, he, ih]

theorem lookupKey_removeKey {α : Type} (l : List (String × α)) (pk q : String) :
    lookupKey (removeKey l pk) q = if q = pk then none else lookupKey l q := by
  induction l with
  | nil => simp [removeKey, lookupKey]
  | cons e t ih =>
    by_cases he : e.1 = pk
    · rw [show removeKey (e :: t) pk = removeKey t pk from by simp [removeKey, he], ih]
      by_cases hq : q = pk
      · simp [hq]
      · have hne : e.1 ≠ q := by rw [he]; intro hh; exact hq hh.symm
        simp [hq, lookupKey, hne]
    · rw [show removeKey (e :: t) pk = e :: removeKey t pk from by simp [removeKey, he]]
      by_cases hq : e.1 = q
      · have hqpk : ¬ q = pk := fun hh => he (hq.symm ▸ hh)
        simp [lookupKey, hq, hqpk]
      · simp [lookupKey, hq, ih]

theorem lookupKey_upsert_self (st : StateTab) (pk h : String) :
    lookupKey (upsert st pk h) pk = some h := by
  unfold upsert
  rw [lookupKey_append, lookupKey_removeKey]
  simp [lookupKey, optOr]

theorem lookupKey_upsert_ne (st : StateTab) (pk h q : String) (hne : q ≠ pk) :
    lookupKey (upsert st pk h) q = lookupKey st q := by
  unfold upsert
  rw [lookupKey_append, lookupKey_removeKey]
  have hpk : pk ≠ q := fun hh => hne hh.symm
  simp only [hne, if_false, lookupKey, hpk, optOr]
  cases lookupKey st q <;> rfl

theorem lookupKey_upsertMany (st : StateTab) (batch : List (String × String))
    (q : String) (hnd : (batch.map Prod.fst).Nodup) :
    lookupKey (upsertMany st batch) q = optOr (lookupKey batch q) (lookupKey st q) := by
  induction batch generalizing st with
  | nil => simp [upsertMany, optOr, lookupKey]
  | cons r t ih =>
    simp only [List.map_cons, List.nodup_cons] at hnd
    have hstep : upsertMany st (r :: t) = upsertMany (upsert st r.1 r.2) t := rfl
    rw [hstep, ih _ hnd.2]
    by_cases hq : q = r.1
    · have ht : lookupKey t q = none := by
        rw [lookupKey_eq_none_iff]
        rw [hq]
        simpa [keysOf] using hnd.1
      rw [hq] at ht ⊢
      simp [optOr, ht, lookupKey, lookupKey_upsert_self]
    · have hrq : r.1 ≠ q := fun hh => hq hh.symm
      simp [optOr, lookupKey, hrq, lookupKey_upsert_ne st r.1 r.2 q hq]

theorem lookupKey_deleteKeys (st : StateTab) (ks : List String) (q : String) :
    lookupKey (deleteKeys st ks) q = if q ∈ ks then none else lookupKey st q := by
  induction st with
  | nil => simp [deleteKeys, lookupKey]
  | cons e t ih =>
    by_cases hk : e.1 ∈ ks
    · rw [show deleteKeys (e :: t) ks = deleteKeys t ks from by simp [deleteKeys, hk], ih]
      by_cases hq : q ∈ ks
      · simp [hq]
      · have hne : e.1 ≠ q := fun hh => hq (hh ▸ hk)
        simp [hq, lookupKey, hne]
    · rw [show deleteKeys (e :: t) ks = e :: deleteKeys t ks from by simp [deleteKeys, hk]]
      by_cases hq : e.1 = q
      · have hqk : q ∉ ks := fun hh => hk (hq.symm ▸ hh)
        simp [lookupKey, hq, hqk]
      · simp [lookupKey, hq, ih]

theorem mem_removedOf_iff (ks seen : List String) (q : String) :
    q ∈ removedOf ks seen ↔ q ∈ ks ∧ q ∉ seen := by
  induction ks with
  | nil => simp [removedOf]
  | cons k t ih =>
    by_cases hk : k ∈ seen
    · simp only [removedOf, hk, if_true, ih, List.mem_cons]
      constructor
      · exact fun hh => ⟨Or.inr hh.1, hh.2⟩
      · rintro ⟨hq | hq, hs⟩
        · exact absurd (hq ▸ hk) hs
        · exact ⟨hq, hs⟩
    · simp only [removedOf, hk, if_false, List.mem_cons, ih]
      constructor
      · rintro (hq | ⟨hq, hs⟩)
        · exact ⟨Or.inl hq, hq ▸ hk⟩
        · exact ⟨Or.inr hq, hs⟩
      · rintro ⟨hq | hq, hs⟩
        · exact Or.inl hq
        · exact Or.inr ⟨hq, hs⟩

theorem mem_diffRemoved_iff (st : StateTab) (batch : List (String × String)) (q : String) :
    q ∈ diffRemoved st batch ↔ q ∈ keysOf st ∧ q ∉ seenKeys batch :=
  mem_removedOf_iff (keysOf st) (seenKeys batch) q

/-- Lookup in the esma_common post-commit table agrees with lookup in the
current batch, for batches with distinct keys. -/
theorem lookupKey_esmaPostState (st : StateTab) (batch : List (String × String))
    (q : String) (hnd : (batch.map Prod.fst).Nodup) :
    lookupKey (esmaPostState st batch) q = lookupKey batch q := by
  unfold esmaPostState
  rw [lookupKey_deleteKeys, lookupKey_upsertMany st batch q hnd]
  by_cases hr : q ∈ diffRemoved st batch
  · have h2 : q ∉ seenKeys batch := ((mem_diffRemoved_iff st batch q).1 hr).2
    have hb : lookupKey batch q = none := by
      rw [lookupKey_eq_none_iff]
      simpa [keysOf, seenKeys] using h2
    simp [hr, hb]
  · simp only [hr, if_false]
    cases hb : lookupKey batch q with
    | some h => simp [optOr]
    | none =>
      have hq : q ∉ keysOf batch := (lookupKey_eq_none_iff batch q).1 hb
      have hst : lookupKey st q = none := by
        rw [lookupKey_eq_none_iff]
        intro hmem
        exact hr ((mem_diffRemoved_iff st batch q).2
          ⟨hmem, by simpa [seenKeys, keysOf] using hq⟩)
      simp [optOr, hst]

theorem removeKey_sublist (l : List (String × String)) (pk : String) :
    (removeKey l pk).Sublist l := by
  induction l with
  | nil => simp [removeKey]
  | cons e t ih =>
    by_cases he : e.1 = pk
    · simp only [removeKey, he, if_true]
      exact ih.cons e
    · simp only [removeKey, he, if_false]
      exact ih.cons₂ e

theorem not_mem_keysOf_removeKey (l : List (String × String)) (pk : String) :
    pk ∉ keysOf (removeKey l pk) := by
  induction l with
  | nil => simp [removeKey, keysOf]
  | cons e t ih =>
    by_cases he : e.1 = pk
    · simpa [removeKey, he] using ih
    · simp [removeKey, he, keysOf]
      exact ⟨fun hh => he hh.symm, by simpa [keysOf] using ih⟩

theorem keysOf_upsert_nodup (st : StateTab) (pk h : String)
    (hnd : (keysOf st).Nodup) : (keysOf (upsert st pk h)).Nodup := by
  unfold upsert
  rw [keysOf, List.map_append]
  rw [List.nodup_append]
  refine ⟨?_, by simp, ?_⟩
  · exact ((removeKey_sublist st pk).map Prod.fst).nodup hnd
  · intro a ha hb
    simp only [List.map_cons, List.map_nil, List.mem_singleton] at hb
    exact not_mem_keysOf_removeKey st pk (hb ▸ ha)

theorem keysOf_upsertMany_nodup (st : StateTab) (batch : List (String × String))
    (hnd : (keysOf st).Nodup) : (keysOf (upsertMany st batch)).Nodup := by
  induction batch generalizing st with
  | nil => exact hnd
  | cons r t ih => exact ih _ (keysOf_upsert_nodup st r.1 r.2 hnd)

theorem deleteKeys_sublist (st : StateTab) (ks : List String) :
    (deleteKeys st ks).Sublist st := by
  induction st with
  | nil => simp [deleteKeys]
  | cons e t ih =>
    by_cases he : e.1 ∈ ks
    · simp only [deleteKeys, he, if_true]
      exact ih.cons e
    · simp only [deleteKeys, he, if_false]
      exact ih.cons₂ e

theorem keysOf_esmaPostState_nodup (st : StateTab) (batch : List (String × String))
    (hnd : (keysOf st).Nodup) : (keysOf (esmaPostState st batch)).Nodup := by
  unfold esmaPostState
  exact ((deleteKeys_sublist (upsertMany st batch) (diffRemoved st batch)).map
    Prod.fst).nodup (keysOf_upsertMany_nodup st batch hnd)

theorem diffNew_eq_nil (st : StateTab) (b : List (String × String))
    (h : ∀ r ∈ b, (lookupKey st r.1).isSome) : diffNew st b = [] := by
  induction b with
  | nil => rfl
  | cons r t ih =>
    cases hl : lookupKey st r.1 with
    | none =>
      have := h r (List.mem_cons_self r t)
      rw [hl] at this
      simp at this
    | some v =>
      simp only [diffNew, hl]
      exact ih (fun s hs => h s (List.mem_cons_of_mem r hs))

theorem diffUpdated_eq_nil (st : StateTab) (b : List (String × String))
    (h : ∀ r ∈ b, lookupKey st r.1 = none ∨ lookupKey st r.1 = some r.2) :
    diffUpdated st b = [] := by
  induction b with
  | nil => rfl
  | cons r t ih =>
    have ht : diffUpdated st t = [] := ih (fun s hs => h s (List.mem_cons_of_mem r hs))
    rcases h r (List.mem_cons_self r t) with hl | hl <;>
      simp [diffUpdated, hl, ht]

theorem removedOf_eq_nil (ks seen : List String)
    (h : ∀ k ∈ ks, k ∈ seen) : removedOf ks seen = [] := by
  induction ks with
  | nil => rfl
  | cons k t ih =>
    simp only [removedOf, h k (List.mem_cons_self k t), if_true]
    exact ih (fun s hs => h s (List.mem_cons_of_mem k hs))

/-! ## Claim C1 -/

/-- Claim C1, counterexample: with prior table containing only key A and a
current batch containing only key B, casps_pipeline.diff_against_state
reports A as removed yet leaves the stale pair (A, h1) in the persisted
table, so the persisted table does not equal the set of current batch
pairs and the removed key is not deleted. -/
theorem c1_counterexample :
    diffRemoved [("A", "h1")] [("B", "h2")] = ["A"]
      ∧ ("A", "h1") ∈ caspsPostState [("A", "h1")] [("B", "h2")]
      ∧ ("A", "h1") ∉ ([("B", "h2")] : List (String × String)) := by
  refine ⟨rfl, ?_, by decide⟩
  show ("A", "h1") ∈ [("A", "h1"), ("B", "h2")]
  decide

/-- Claim C1, amended: for the shared esma_common.diff_against_state
(used by the non_compliant dataset), after a successful run the persisted
table equals exactly the set of (pk, hash) pairs of the current batch,
every prior key absent from the batch is reported in removed, and every
removed key is deleted from the table.  The casps_pipeline copy of
diff_against_state reports removed keys but never deletes them. -/
theorem c1_amended (st : StateTab) (batch : List (String × String))
    (hst : (keysOf st).Nodup) (hb : (batch.map Prod.fst).Nodup) :
    (∀ pk h, (pk, h) ∈ esmaPostState st batch ↔ (pk, h) ∈ batch)
      ∧ (∀ pk, pk ∈ diffRemoved st batch ↔ pk ∈ keysOf st ∧ pk ∉ keysOf batch)
      ∧ ∀ pk ∈ diffRemoved st batch, pk ∉ keysOf (esmaPostState st batch) := by
  refine ⟨?_, ?_, ?_⟩
  · intro pk h
    constructor
    · intro hm
      have hl := lookupKey_of_mem_nodup _ pk h (keysOf_esmaPostState_nodup st batch hst) hm
      rw [lookupKey_esmaPostState st batch pk hb] at hl
      exact mem_of_lookupKey _ _ _ hl
    · intro hm
      have hl := lookupKey_of_mem_nodup _ pk h hb hm
      rw [← lookupKey_esmaPostState st batch pk hb] at hl
      exact mem_of_lookupKey _ _ _ hl
  · intro pk
    rw [mem_diffRemoved_iff]
    rfl
  · intro pk hr
    have h2 : pk ∉ seenKeys batch := ((mem_diffRemoved_iff st batch pk).1 hr).2
    have hb2 : lookupKey batch pk = none := by
      rw [lookupKey_eq_none_iff]
      exact h2
    rw [← lookupKey_eq_none_iff, lookupKey_esmaPostState st batch pk hb]
    exact hb2

/-- Claim C1 witness: a concrete run of the amended statement. -/
theorem c1_amended_witness :
    ((keysOf [("A", "h1")]).Nodup
        ∧ (([("B", "h2")] : List (String × String)).map Prod.fst).Nodup)
      ∧ (("B", "h2") ∈ esmaPostState [("A", "h1")] [("B", "h2")]
          ↔ ("B", "h2") ∈ ([("B", "h2")] : List (String × String))) :=
  ⟨⟨by decide, by decide⟩,
    (c1_amended [("A", "h1")] [("B", "h2")] (by decide) (by decide)).1 "B" "h2"⟩

/-! ## Claim C6 -/

/-- Claim C6, counterexample: for casps_pipeline.diff_against_state with
prior state containing key A and a batch containing only key B, running
the change detection twice on the identical batch reports A as removed
again on the second run, because the first run never deleted it. -/
theorem c6_counterexample :
    diffRemoved (caspsPostState [("A", "h1")] [("B", "h2")]) [("B", "h2")] = ["A"]
      ∧ diffRemoved (caspsPostState [("A", "h1")] [("B", "h2")]) [("B", "h2")] ≠ [] := by
  constructor
  · rfl
  · intro h
    simpa using congrArg List.length (rfl.trans h :
      (["A"] : List String) = [])

/-- Claim C6, amended: for the shared esma_common.diff_against_state and a
batch whose identity keys are distinct, a second run on the identical
batch yields empty new, updated and removed lists.  The casps_pipeline
variant re-reports the same removed keys on every later run because it
never deletes them from the table. -/
theorem c6_amended (st : StateTab) (batch : List (String × String))
    (hb : (batch.map Prod.fst).Nodup) :
    diffNew (esmaPostState st batch) batch = []
      ∧ diffUpdated (esmaPostState st batch) batch = []
      ∧ diffRemoved (esmaPostState st batch) batch = [] := by
  refine ⟨?_, ?_, ?_⟩
  · refine diffNew_eq_nil _ _ (fun r hr => ?_)
    rw [lookupKey_esmaPostState st batch r.1 hb]
    rw [lookupKey_isSome_iff]
    exact List.mem_map_of_mem Prod.fst hr
  · refine diffUpdated_eq_nil _ _ (fun r hr => ?_)
    right
    rw [lookupKey_esmaPostState st batch r.1 hb]
    exact lookupKey_of_mem_nodup batch r.1 r.2 hb (by simpa using hr)
  · refine removedOf_eq_nil _ _ (fun k hk => ?_)
    have : (lookupKey (esmaPostState st batch) k).isSome := by
      rw [lookupKey_isSome_iff]
      exact hk
    rw [lookupKey_esmaPostState st batch k hb, lookupKey_isSome_iff] at this
    exact this

/-! ## Lemmas about dict assignment and the update_meta load loop -/

theorem lookupKey_setKey_self {α : Type} (l : List (String × α)) (k : String) (v : α) :
    lookupKey (setKey l k v) k = some v := by
  induction l with
  | nil => simp [setKey, lookupKey]
  | cons e t ih =>
    by_cases he : e.1 = k
    · simp [setKey, he, lookupKey]
    · simp [setKey, he, lookupKey, ih]

theorem lookupKey_setKey_ne {α : Type} (l : List (String × α)) (k q : String) (v : α)
    (hq : q ≠ k) : lookupKey (setKey l k v) q = lookupKey l q := by
  have hkq : ¬ k = q := fun hh => hq hh.symm
  induction l with
  | nil =>
    simp only [setKey, lookupKey]
    exact if_neg hkq
  | cons e t ih =>
    by_cases he : e.1 = k
    · have he2 : ¬ e.1 = q := by rw [he]; exact hkq
      simp only [setKey, he, if_true, lookupKey, hkq, if_false, he2]
    · simp only [setKey, he, if_false, lookupKey]
      by_cases hq2 : e.1 = q
      · simp [hq2]
      · simp [hq2, ih]

theorem mem_keysOf_setKey {α : Type} (l : List (String × α)) (k q : String) (v : α) :
    q ∈ keysOf (setKey l k v) ↔ q = k ∨ q ∈ keysOf l := by
  induction l with
  | nil => simp [setKey, keysOf]
  | cons e t ih =>
    by_cases he : e.1 = k
    · simp only [setKey, he, if_true, keysOf, List.map_cons, List.mem_cons]
      constructor
      · rintro (h | h)
        · exact Or.inl h
        · exact Or.inr (Or.inr h)
      · rintro (h | h | h)
        · exact Or.inl h
        · exact Or.inl h
        · exact Or.inr h
    · simp only [setKey, he, if_false, keysOf, List.map_cons, List.mem_cons]
      rw [show ((setKey t k v).map Prod.fst) = keysOf (setKey t k v) from rfl,
        show (t.map Prod.fst) = keysOf t from rfl, ih]
      tauto

theorem keysOf_setKey_nodup {α : Type} (l : List (String × α)) (k : String) (v : α)
    (hnd : (keysOf l).Nodup) : (keysOf (setKey l k v)).Nodup := by
  induction l with
  | nil => simp [setKey, keysOf]
  | cons e t ih =>
    simp only [keysOf, List.map_cons, List.nodup_cons] at hnd
    by_cases he : e.1 = k
    · simp only [setKey, he, if_true, keysOf, List.map_cons, List.nodup_cons]
      exact ⟨by rw [← he]; exact hnd.1, hnd.2⟩
    · simp only [setKey, he, if_false, keysOf, List.map_cons, List.nodup_cons]
      refine ⟨?_, ih hnd.2⟩
      rw [show (setKey t k v).map Prod.fst = keysOf (setKey t k v) from rfl]
      rw [mem_keysOf_setKey]
      rintro (h | h)
      · exact he h
      · exact hnd.1 h

theorem mem_setKey {α : Type} (l : List (String × α)) (k : String) (v : α)
    (kv : String × α) (hm : kv ∈ setKey l k v) : kv = (k, v) ∨ kv ∈ l := by
  induction l with
  | nil => simpa [setKey] using hm
  | cons e t ih =>
    by_cases he : e.1 = k
    · simp only [setKey, he, if_true, List.mem_cons] at hm
      rcases hm with h | h
      · exact Or.inl h
      · exact Or.inr (List.mem_cons_of_mem e h)
    · simp only [setKey, he, if_false, List.mem_cons] at hm
      rcases hm with h | h
      · exact Or.inr (h ▸ List.mem_cons_self e t)
      · rcases ih h with h2 | h2
        · exact Or.inl h2
        · exact Or.inr (List.mem_cons_of_mem e h2)

theorem setKey_of_not_mem {α : Type} (l : List (String × α)) (k : String) (v : α)
    (h : k ∉ keysOf l) : setKey l k v = l ++ [(k, v)] := by
  induction l with
  | nil => simp [setKey]
  | cons e t ih =>
    simp only [keysOf, List.map_cons, List.mem_cons] at h
    push_neg at h
    have he : e.1 ≠ k := fun hh => h.1 hh.symm
    simp only [setKey, he, if_false, List.cons_append, List.cons.injEq, true_and]
    exact ih (by simpa [keysOf] using h.2)

theorem entryFold_reproduce (fs base : List (String × JVal))
    (hnd : (keysOf fs).Nodup)
    (hdis : ∀ k ∈ keysOf fs, k ∉ keysOf base)
    (hall : ∀ kv ∈ fs, isDatasetEntry kv.2 = true) :
    entryFold fs base = base ++ fs := by
  induction fs generalizing base with
  | nil => simp [entryFold]
  | cons e t ih =>
    simp only [keysOf, List.map_cons, List.nodup_cons] at hnd
    have hde : isDatasetEntry e.2 = true := hall e (List.mem_cons_self e t)
    have hstep : entryFold (e :: t) base = entryFold t (setKey base e.1 e.2) := by
      simp [entryFold, hde]
    rw [hstep]
    have hnm : e.1 ∉ keysOf base :=
      hdis e.1 (by simp [keysOf])
    rw [setKey_of_not_mem base e.1 e.2 hnm]
    have hres := ih (base ++ [(e.1, e.2)]) hnd.2 ?hdis2
        (fun kv hkv => hall kv (List.mem_cons_of_mem e hkv))
    case hdis2 =>
      intro k hk
      simp only [keysOf, List.map_append, List.mem_append, List.map_cons, List.map_nil,
        List.mem_singleton]
      rintro (hb | hb)
      · exact hdis k (by simp only [keysOf, List.map_cons, List.mem_cons]; right; exact hk) hb
      · rw [hb] at hk
        exact hnd.1 hk
    rw [hres, List.append_assoc]
    rfl

theorem entryFold_skip (fs base : List (String × JVal))
    (h : ∀ kv ∈ fs, isDatasetEntry kv.2 = false) :
    entryFold fs base = base := by
  induction fs generalizing base with
  | nil => rfl
  | cons e t ih =>
    have hde : isDatasetEntry e.2 = false := h e (List.mem_cons_self e t)
    have hstep : entryFold (e :: t) base = entryFold t base := by
      simp [entryFold, hde]
    rw [hstep]
    exact ih base (fun kv hkv => h kv (List.mem_cons_of_mem e hkv))

theorem prepareMeta_has_source (source : String) (md : List (String × JVal))
    (nowTs : String) : lookupKey (prepareMeta source md nowTs) "source"
      = some (JVal.s source) := by
  unfold prepareMeta setDefault
  by_cases h : (lookupKey (setKey md "source" (JVal.s source)) "generated_at").isSome = true
  · rw [if_pos h]
    exact lookupKey_setKey_self md "source" (JVal.s source)
  · rw [if_neg h, lookupKey_append, lookupKey_setKey_self md "source" (JVal.s source)]
    rfl

/-- A document whose fields all are keyed dataset entries with distinct
keys, none named source, is loaded back verbatim by update_meta, and the
merged document is exactly that list with the merging dataset's entry set.
This is the normal-format behaviour of update_meta. -/
theorem updateMeta_keyed (source : String) (md fs : List (String × JVal)) (nowTs : String)
    (hsrc : "source" ∉ keysOf fs) (hnd : (keysOf fs).Nodup)
    (hall : ∀ kv ∈ fs, isDatasetEntry kv.2 = true) :
    updateMeta source md (some (JVal.obj fs)) nowTs
      = JVal.obj (setKey fs source (JVal.obj (prepareMeta source md nowTs))) := by
  have hflat : isLegacyFlat fs = false := by
    have : lookupKey fs "source" = none := (lookupKey_eq_none_iff fs "source").2 hsrc
    simp [isLegacyFlat, hasField, this]
  have hfold : entryFold fs [] = fs := by
    rw [entryFold_reproduce fs [] hnd (by simp [keysOf]) hall]
    rfl
  simp [updateMeta, hflat, hfold]

/-! ## Claim C4 -/

/-- Claim C4, amended: merging run metadata with esma_common.update_meta replaces
only the merging dataset's entry: running dataset A then dataset B over a
keyed document yields a document holding independent entries for both,
with every other dataset's entry unchanged. -/
theorem c4_metadata_isolation (A B : String) (ma mb fs : List (String × JVal))
    (t1 t2 : String)
    (hAB : A ≠ B) (hA : A ≠ "source")
    (hsrc : "source" ∉ keysOf fs) (hnd : (keysOf fs).Nodup)
    (hall : ∀ kv ∈ fs, isDatasetEntry kv.2 = true) :
    metaEntry (updateMeta B mb (some (updateMeta A ma (some (JVal.obj fs)) t1)) t2) B
        = some (JVal.obj (prepareMeta B mb t2))
      ∧ metaEntry (updateMeta B mb (some (updateMeta A ma (some (JVal.obj fs)) t1)) t2) A
        = some (JVal.obj (prepareMeta A ma t1))
      ∧ ∀ k, k ≠ A → k ≠ B →
        metaEntry (updateMeta B mb (some (updateMeta A ma (some (JVal.obj fs)) t1)) t2) k
          = lookupKey fs k := by
  have h1 : updateMeta A ma (some (JVal.obj fs)) t1
      = JVal.obj (setKey fs A (JVal.obj (prepareMeta A ma t1))) :=
    updateMeta_keyed A ma fs t1 hsrc hnd hall
  have hsrc1 : "source" ∉ keysOf (setKey fs A (JVal.obj (prepareMeta A ma t1))) := by
    rw [mem_keysOf_setKey]
    rintro (h | h)
    · exact hA h.symm
    · exact hsrc h
  have hnd1 : (keysOf (setKey fs A (JVal.obj (prepareMeta A ma t1)))).Nodup :=
    keysOf_setKey_nodup fs A _ hnd
  have hall1 : ∀ kv ∈ setKey fs A (JVal.obj (prepareMeta A ma t1)),
      isDatasetEntry kv.2 = true := by
    intro kv hkv
    rcases mem_setKey fs A _ kv hkv with h | h
    · rw [h]
      simp only [isDatasetEntry, hasField]
      rw [prepareMeta_has_source]
      rfl
    · exact hall kv h
  have h2 : updateMeta B mb (some (updateMeta A ma (some (JVal.obj fs)) t1)) t2
      = JVal.obj (setKey (setKey fs A (JVal.obj (prepareMeta A ma t1))) B
          (JVal.obj (prepareMeta B mb t2))) := by
    rw [h1]
    exact updateMeta_keyed B mb _ t2 hsrc1 hnd1 hall1
  refine ⟨?_, ?_, ?_⟩
  · rw [h2]
    exact lookupKey_setKey_self _ B _
  · rw [h2]
    show lookupKey (setKey (setKey fs A (JVal.obj (prepareMeta A ma t1))) B
      (JVal.obj (prepareMeta B mb t2))) A = _
    rw [lookupKey_setKey_ne _ B A _ hAB]
    exact lookupKey_setKey_self fs A _
  · intro k hkA hkB
    rw [h2]
    show lookupKey (setKey (setKey fs A (JVal.obj (prepareMeta A ma t1))) B
      (JVal.obj (prepareMeta B mb t2))) k = _
    rw [lookupKey_setKey_ne _ B k _ hkB, lookupKey_setKey_ne _ A k _ hkA]

/-- Claim C4, counterexample: the casps publisher does not merge its run
metadata.  After dataset A (non_compliant) has run alone, the cumulative
document produced by update_meta holds an entry for it; when dataset B
(casps) then runs, write_outputs replaces out/meta.json wholesale with
its flat casps-only document, whatever the file held before, and that
document contains no entry for the first dataset (nor a keyed casps
entry), so the resulting document does not hold independent entries for
both A and B. -/
theorem c4_counterexample :
    metaEntry (updateMeta "non_compliant" [("total_rows", JVal.i 7)] none "T1")
        "non_compliant"
      = some (JVal.obj (prepareMeta "non_compliant" [("total_rows", JVal.i 7)] "T1"))
      ∧ readFile (write_outputs (fun _ => "J") (fun doc => pyToStr doc) "T2"
          [("out/meta.json", "DOC1")] [] ⟨[], [], []⟩).1 "out/meta.json"
        = some (pyToStr (caspMeta "T2" [] ⟨[], [], []⟩))
      ∧ metaEntry (caspMeta "T2" [] ⟨[], [], []⟩) "non_compliant" = none := by
  refine ⟨rfl, ?_, rfl⟩
  rfl

/-- Claim C4 witness: merging casps then non_compliant into an empty
document yields independent entries for both. -/
theorem c4_witness :
    (("casps" : String) ≠ "non_compliant" ∧ ("casps" : String) ≠ "source")
      ∧ metaEntry (updateMeta "non_compliant" [("total_rows", JVal.i 5)]
          (some (updateMeta "casps" [("total_rows", JVal.i 3)]
            (some (JVal.obj [])) "T1")) "T2") "non_compliant"
        = some (JVal.obj (prepareMeta "non_compliant" [("total_rows", JVal.i 5)] "T2"))
      ∧ metaEntry (updateMeta "non_compliant" [("total_rows", JVal.i 5)]
          (some (updateMeta "casps" [("total_rows", JVal.i 3)]
            (some (JVal.obj [])) "T1")) "T2") "casps"
        = some (JVal.obj (prepareMeta "casps" [("total_rows", JVal.i 3)] "T1")) :=
  ⟨⟨by decide, by decide⟩,
    (c4_metadata_isolation "casps" "non_compliant" [("total_rows", JVal.i 3)]
      [("total_rows", JVal.i 5)] [] "T1" "T2" (by decide) (by decide)
      (by simp [keysOf]) (by simp [keysOf]) (by simp)).1,
    (c4_metadata_isolation "casps" "non_compliant" [("total_rows", JVal.i 3)]
      [("total_rows", JVal.i 5)] [] "T1" "T2" (by decide) (by decide)
      (by simp [keysOf]) (by simp [keysOf]) (by simp)).2.1⟩

/-! ## Claim C5 -/

/-- Claim C5: update_meta detects a legacy flat document (a top-level
source field together with a metadata count field such as total_rows, no
per-dataset key) and migrates it into the keyed format, preserving the
legacy fields under the dataset name declared by its source field, before
appending the merging dataset's own entry. -/
theorem c5_legacy_migration (source name : String) (md fs : List (String × JVal))
    (t : String)
    (hname : lookupKey fs "source" = some (JVal.s name))
    (hname2 : name ≠ "")
    (hmk : hasField fs "total_rows" = true)
    (hflat : ∀ kv ∈ fs, isDatasetEntry kv.2 = false)
    (hns : name ≠ source) :
    metaEntry (updateMeta source md (some (JVal.obj fs)) t) name
        = some (JVal.obj (setKey (dropKeys fs name "source") "source" (JVal.s name)))
      ∧ metaEntry (updateMeta source md (some (JVal.obj fs)) t) source
        = some (JVal.obj (prepareMeta source md t)) := by
  have hleg : isLegacyFlat fs = true := by
    simp only [isLegacyFlat, hasField, hname, Option.isSome_some, Bool.true_and,
      legacyMarkers, List.any_cons]
    rw [show (lookupKey fs "total_rows").isSome = hasField fs "total_rows" from rfl, hmk]
    rfl
  have hdn : legacyName fs source = name := by
    simp only [legacyName, hname, pyTruthy, pyToStr]
    rw [if_pos]
    simp only [Bool.not_eq_true']
    rw [beq_eq_false_iff_ne]
    exact hname2
  have hfold : ∀ base, entryFold fs base = base := fun base => entryFold_skip fs base hflat
  simp [updateMeta, hleg, hdn, hfold]
  constructor
  · show lookupKey (setKey [(name, JVal.obj (setKey (dropKeys fs name "source") "source"
      (JVal.s name)))] source (JVal.obj (prepareMeta source md t))) name = _
    have hsn : source ≠ name := fun hh => hns hh.symm
    rw [show setKey [(name, JVal.obj (setKey (dropKeys fs name "source") "source"
        (JVal.s name)))] source (JVal.obj (prepareMeta source md t))
        = [(name, JVal.obj (setKey (dropKeys fs name "source") "source" (JVal.s name))),
            (source, JVal.obj (prepareMeta source md t))] from by
      simp [setKey, hsn.symm]]
    simp [lookupKey]
  · show lookupKey (setKey [(name, JVal.obj (setKey (dropKeys fs name "source") "source"
      (JVal.s name)))] source (JVal.obj (prepareMeta source md t))) source = _
    rw [lookupKey_setKey_self]

/-- Claim C5 witness: a concrete legacy flat document written by the casps
pipeline is migrated under its declared name casps before the
non_compliant entry is added. -/
theorem c5_witness :
    (lookupKey [("generated_at", JVal.s "2024-01-01T00:00:00Z"),
        ("source", JVal.s "casps"), ("total_rows", JVal.i 12)] "source"
        = some (JVal.s "casps")
      ∧ ("casps" : String) ≠ ""
      ∧ hasField [("generated_at", JVal.s "2024-01-01T00:00:00Z"),
          ("source", JVal.s "casps"), ("total_rows", JVal.i 12)] "total_rows" = true
      ∧ ("casps" : String) ≠ "non_compliant")
      ∧ metaEntry (updateMeta "non_compliant" [("total_rows", JVal.i 7)]
          (some (JVal.obj [("generated_at", JVal.s "2024-01-01T00:00:00Z"),
            ("source", JVal.s "casps"), ("total_rows", JVal.i 12)])) "T3") "casps"
        = some (JVal.obj (setKey (dropKeys [("generated_at", JVal.s "2024-01-01T00:00:00Z"),
            ("source", JVal.s "casps"), ("total_rows", JVal.i 12)] "casps" "source")
            "source" (JVal.s "casps")))
      ∧ metaEntry (updateMeta "non_compliant" [("total_rows", JVal.i 7)]
          (some (JVal.obj [("generated_at", JVal.s "2024-01-01T00:00:00Z"),
            ("source", JVal.s "casps"), ("total_rows", JVal.i 12)])) "T3") "non_compliant"
        = some (JVal.obj (prepareMeta "non_compliant" [("total_rows", JVal.i 7)] "T3")) := by
  have hflat : ∀ kv ∈ [("generated_at", JVal.s "2024-01-01T00:00:00Z"),
      ("source", JVal.s "casps"), ("total_rows", JVal.i 12)], isDatasetEntry kv.2 = false := by
    intro kv hkv
    simp only [List.mem_cons, List.not_mem_nil, or_false] at hkv
    rcases hkv with rfl | rfl | rfl <;> rfl
  have h := c5_legacy_migration "non_compliant" "casps" [("total_rows", JVal.i 7)]
    [("generated_at", JVal.s "2024-01-01T00:00:00Z"), ("source", JVal.s "casps"),
      ("total_rows", JVal.i 12)] "T3" rfl (by decide) rfl hflat (by decide)
  exact ⟨⟨rfl, by decide, rfl, by decide⟩, h.1, h.2⟩

/-- Claim C6 witness: a concrete run of the amended statement. -/
theorem c6_amended_witness :
    ((([("B", "h2"), ("C", "h3")] : List (String × String)).map Prod.fst).Nodup)
      ∧ diffNew (esmaPostState [("A", "h1")] [("B", "h2"), ("C", "h3")])
          [("B", "h2"), ("C", "h3")] = []
      ∧ diffUpdated (esmaPostState [("A", "h1")] [("B", "h2"), ("C", "h3")])
          [("B", "h2"), ("C", "h3")] = []
      ∧ diffRemoved (esmaPostState [("A", "h1")] [("B", "h2"), ("C", "h3")])
          [("B", "h2"), ("C", "h3")] = [] :=
  ⟨by decide, c6_amended [("A", "h1")] [("B", "h2"), ("C", "h3")] (by decide)⟩

/-! ## Claim C2 -/

/-- Claim C2, counterexample: casps_pipeline.write_outputs has no
empty-view guard.  Run against a file system whose out/casps.csv holds
prior content OLD and an export view with zero rows, it raises no error
and overwrites the file with a header-only CSV. -/
theorem c2_counterexample :
    (write_outputs (fun _ => "J") (fun _ => "M") "T"
        [("out/casps.csv", "OLD")] [] ⟨[], [], []⟩).2 = none
      ∧ readFile (write_outputs (fun _ => "J") (fun _ => "M") "T"
          [("out/casps.csv", "OLD")] [] ⟨[], [], []⟩).1 "out/casps.csv"
        = some (caspCsvHeader ++ "\n")
      ∧ readFile (write_outputs (fun _ => "J") (fun _ => "M") "T"
          [("out/casps.csv", "OLD")] [] ⟨[], [], []⟩).1 "out/casps.csv"
        ≠ some "OLD" := by
  exact ⟨rfl, rfl, by decide⟩

/-- Claim C2, amended: esma_common.write_dataset (used by the
non_compliant dataset) raises the explicit ValueError and leaves the file
system byte-for-byte unchanged when the export view has zero rows; the
casps_pipeline publisher write_outputs has no such guard and overwrites
its outputs even for an empty view. -/
theorem c2_amended (renderJson : ExportView → String) (renderMeta : JVal → String)
    (metaRaw : Option JVal) (nowTs ts : String) (fs : FS) (name : String)
    (view : ExportView) (diff : DiffResult) (metaExtra : List (String × JVal))
    (h : view.rows = []) :
    write_dataset renderJson renderMeta metaRaw nowTs ts fs name view diff metaExtra
      = (fs, some (name ++ " dataset is empty; refusing to overwrite outputs")) := by
  simp [write_dataset, h]

/-- Claim C2 witness: a concrete empty export view for the non_compliant
dataset is refused and the prior output file is untouched. -/
theorem c2_amended_witness :
    ((⟨["pk"], []⟩ : ExportView).rows = [])
      ∧ write_dataset (fun _ => "J") (fun _ => "M") none "T" "TS"
          [("out/non_compliant.csv", "OLD")] "non_compliant" ⟨["pk"], []⟩
          ⟨[], [], []⟩ []
        = ([("out/non_compliant.csv", "OLD")],
            some "non_compliant dataset is empty; refusing to overwrite outputs") :=
  ⟨rfl, c2_amended (fun _ => "J") (fun _ => "M") none "T" "TS"
    [("out/non_compliant.csv", "OLD")] "non_compliant" ⟨["pk"], []⟩ ⟨[], [], []⟩ [] rfl⟩

/-! ## Claim C3 -/

/-- Claim C3, counterexample: casps_pipeline.write_outputs writes
out/casps.csv directly at its destination with no temporary file and no
rename, so an execution interrupted during the first write leaves the
destination holding a strict prefix of the new content: a reader observes
a partially written file that is neither the old nor the final content. -/
theorem c3_counterexample :
    readFile (interruptAt [("out/casps.csv", "OLD")]
        (writeOutputsOps (fun _ => "J") (fun _ => "M") "T" [] ⟨[], [], []⟩) 0 2)
        "out/casps.csv" = some "pk"
      ∧ readFile ([("out/casps.csv", "OLD")] : FS) "out/casps.csv" ≠ some "pk"
      ∧ readFile (applyOps [("out/casps.csv", "OLD")]
          (writeOutputsOps (fun _ => "J") (fun _ => "M") "T" [] ⟨[], [], []⟩))
          "out/casps.csv" ≠ some "pk" := by
  exact ⟨by decide, by decide, by decide⟩

/-- Claim C3, amended: every artifact written through
esma_common.atomic_write is written atomically: the content is fully
materialized at the temporary path and moved into place by one rename, so
any interrupted execution leaves the destination either with its previous
content or with the complete new content, never a partial file.  The
casps_pipeline publisher writes its four artifacts directly and is not
atomic. -/
theorem c3_amended (fs : FS) (p d : String) (n k : Nat) :
    readFile (interruptAt fs (atomicWriteOps p d) n k) p = readFile fs p
      ∨ readFile (interruptAt fs (atomicWriteOps p d) n k) p = some d := by
  have htmp : ¬ (p ++ ".tmp" = p) := by
    intro h
    have hc := congrArg String.length h
    have hlen : (".tmp" : String).length = 4 := rfl
    rw [String.length_append, hlen] at hc
    omega
  have hptmp : p ≠ p ++ ".tmp" := fun h => htmp h.symm
  match n with
  | 0 =>
    left
    show readFile (writeFs (applyOps fs []) (p ++ ".tmp") (d.take k)) p = readFile fs p
    exact lookupKey_setKey_ne fs (p ++ ".tmp") p (d.take k) hptmp
  | 1 =>
    left
    show readFile (applyOps fs [FsOp.wfile (p ++ ".tmp") d]) p = readFile fs p
    exact lookupKey_setKey_ne fs (p ++ ".tmp") p d hptmp
  | (m + 2) =>
    right
    have htake : (atomicWriteOps p d).take (m + 2) = atomicWriteOps p d := by
      simp [atomicWriteOps]
    have hget : (atomicWriteOps p d).get? (m + 2) = none := by
      simp [atomicWriteOps]
    have hred : interruptAt fs (atomicWriteOps p d) (m + 2) k
        = applyOps fs (atomicWriteOps p d) := by
      unfold interruptAt
      rw [hget, htake]
    rw [hred]
    have hr : readFile (writeFs fs (p ++ ".tmp") d) (p ++ ".tmp") = some d :=
      lookupKey_setKey_self fs (p ++ ".tmp") d
    show readFile (applyOp (applyOp fs (FsOp.wfile (p ++ ".tmp") d))
      (FsOp.rename (p ++ ".tmp") p)) p = some d
    show readFile (match readFile (writeFs fs (p ++ ".tmp") d) (p ++ ".tmp") with
      | some c => writeFs (removeKey (writeFs fs (p ++ ".tmp") d) (p ++ ".tmp")) p c
      | none => writeFs fs (p ++ ".tmp") d) p = some d
    rw [hr]
    exact lookupKey_setKey_self _ p d

/-! ## Python strip lemmas -/

theorem dropLeading_shape (p : Char → Bool) (l : List Char) :
    dropLeading p l = [] ∨ ∃ c t, dropLeading p l = c :: t ∧ p c = false := by
  induction l with
  | nil => exact Or.inl rfl
  | cons c t ih =>
    by_cases hc : p c
    · simpa [dropLeading, hc] using ih
    · right
      exact ⟨c, t, by simp [dropLeading, hc], by simpa using hc⟩

theorem dropTrailing_shape (p : Char → Bool) (c : Char) (t : List Char) :
    dropTrailing p (c :: t) = [] ∨ ∃ r, dropTrailing p (c :: t) = c :: r := by
  cases hdt : dropTrailing p t with
  | nil =>
    by_cases hc : p c
    · left
      simp [dropTrailing, hdt, hc]
    · right
      exact ⟨[], by simp [dropTrailing, hdt, hc]⟩
  | cons b s =>
    right
    exact ⟨b :: s, by simp [dropTrailing, hdt]⟩

theorem dropTrailing_idem (p : Char → Bool) (l : List Char) :
    dropTrailing p (dropTrailing p l) = dropTrailing p l := by
  induction l with
  | nil => rfl
  | cons c t ih =>
    cases hdt : dropTrailing p t with
    | nil =>
      by_cases hc : p c
      · simp [dropTrailing, hdt, hc]
      · simp [dropTrailing, hdt, hc]
    | cons b s =>
      rw [hdt] at ih
      have h1 : dropTrailing p (c :: t) = c :: b :: s := by
        simp [dropTrailing, hdt]
      rw [h1]
      have hstep : dropTrailing p (c :: b :: s)
          = match dropTrailing p (b :: s) with
            | [] => if p c = true then [] else [c]
            | r => c :: r := rfl
      rw [hstep, ih]

theorem pyStrip_idem (s : String) : pyStrip (pyStrip s) = pyStrip s := by
  unfold pyStrip
  congr 1
  show dropTrailing Char.isWhitespace (dropLeading Char.isWhitespace
      (dropTrailing Char.isWhitespace (dropLeading Char.isWhitespace s.data)))
    = dropTrailing Char.isWhitespace (dropLeading Char.isWhitespace s.data)
  have hLB : dropLeading Char.isWhitespace (dropTrailing Char.isWhitespace
      (dropLeading Char.isWhitespace s.data))
      = dropTrailing Char.isWhitespace (dropLeading Char.isWhitespace s.data) := by
    rcases dropLeading_shape Char.isWhitespace s.data with hA | ⟨c, t, hA, hpc⟩
    · rw [hA]
      rfl
    · rw [hA]
      rcases dropTrailing_shape Char.isWhitespace c t with hB | ⟨r, hB⟩
      · rw [hB]
        rfl
      · rw [hB]
        simp [dropLeading, hpc]
  rw [hLB]
  exact dropTrailing_idem _ _

/-! ## Service code lemmas -/

theorem mem_service_keys_range (d : Char)
    (h : (lookupKey SERVICE_CODE_MAP (String.mk [d])).isSome = true) :
    'a' ≤ d ∧ d ≤ 'j' := by
  rw [lookupKey_isSome_iff] at h
  simp only [SERVICE_CODE_MAP, keysOf, List.map_cons, List.map_nil, List.mem_cons,
    List.not_mem_nil, or_false] at h
  rcases h with h | h | h | h | h | h | h | h | h | h <;>
  · have h2 := congrArg String.data h
    simp at h2
    subst h2
    exact ⟨by decide, by decide⟩

theorem dedupFirstAux_spec (l : List String) : ∀ seen : List String,
    (dedupFirstAux seen l).Nodup ∧ ∀ x ∈ dedupFirstAux seen l, x ∉ seen := by
  induction l with
  | nil =>
    intro seen
    exact ⟨List.nodup_nil, by simp [dedupFirstAux]⟩
  | cons x xs ih =>
    intro seen
    by_cases hx : x ∈ seen
    · simpa only [dedupFirstAux, hx, if_true] using ih seen
    · simp only [dedupFirstAux, hx, if_false]
      refine ⟨?_, ?_⟩
      · rw [List.nodup_cons]
        refine ⟨?_, (ih (x :: seen)).1⟩
        intro hmem
        exact ((ih (x :: seen)).2 x hmem) (List.mem_cons_self x seen)
      · intro y hy
        rcases List.mem_cons.1 hy with rfl | hy2
        · exact hx
        · intro hys
          exact ((ih (x :: seen)).2 y hy2) (List.mem_cons_of_mem x hys)

theorem cleanPart_eq_spec (seg : String) (hseg : pyStrip seg = seg) :
    cleanPart seg = specServiceLabel seg := by
  cases hm : matchServiceCode seg with
  | none =>
    have hclean : cleanPart seg = seg := by
      unfold cleanPart
      rw [hm, hseg]
    rw [hclean]
    unfold specServiceLabel
    split
    · rename_i c c2 tail heq
      by_cases h2 : c2 = '.'
      · rw [if_pos h2]
        cases hlook : lookupKey SERVICE_CODE_MAP (String.mk [c.toLower]) with
        | none => rfl
        | some label =>
          exfalso
          have hrange := mem_service_keys_range c.toLower (by rw [hlook]; rfl)
          unfold matchServiceCode at hm
          rw [heq] at hm
          have hm2 : (if c2 = '.' ∧ 'a' ≤ c.toLower ∧ c.toLower ≤ 'j'
              then some (String.mk [c.toLower]) else none) = none := hm
          rw [if_pos ⟨h2, hrange⟩] at hm2
          exact Option.noConfusion hm2
      · rw [if_neg h2]
    · rfl
  | some code =>
    have hclean : cleanPart seg
        = (lookupKey SERVICE_CODE_MAP code).getD (pyStrip seg) := by
      unfold cleanPart
      rw [hm]
    unfold matchServiceCode at hm
    split at hm
    · rename_i c c2 tail heq
      have hspec : specServiceLabel seg
          = if c2 = '.' then
              (match lookupKey SERVICE_CODE_MAP (String.mk [c.toLower]) with
                | some label => label
                | none => seg)
            else seg := by
        unfold specServiceLabel
        rw [heq]
      split at hm
      · rename_i hcond
        have hcode : code = String.mk [c.toLower] := (Option.some.inj hm).symm
        rw [hclean, hcode, hspec, if_pos hcond.1]
        cases hlook : lookupKey SERVICE_CODE_MAP (String.mk [c.toLower]) with
        | some label => simp [hlook]
        | none => simp [hlook, hseg]
      · exact Option.noConfusion hm
    · exact Option.noConfusion hm

/-! ## Claim C9 -/

/-- Claim C9: shorten_service_codes computes exactly the value described
by the specification (each leading-letter-period segment mapped via the
fixed code table, unrecognized segments passed through as-is, the labels
pipe-joined in first-occurrence order), and the emitted label list is
duplicate-free. -/
theorem c9_service_codes :
    (∀ value, shorten_service_codes value = claimServiceValue value)
      ∧ ∀ l : List String, (dedupFirst l).Nodup := by
  constructor
  · intro value
    unfold shorten_service_codes claimServiceValue
    by_cases hv : value = ""
    · simp [hv]
    · simp only [hv, if_false]
      congr 2
      refine List.map_congr_left ?_
      intro seg hseg
      have hs : pyStrip seg = seg := by
        rcases List.mem_filter.1 hseg with ⟨hmem, _⟩
        rcases List.mem_map.1 hmem with ⟨s0, _, rfl⟩
        exact pyStrip_idem s0
      exact cleanPart_eq_spec seg hs
  · intro l
    exact (dedupFirstAux_spec l []).1

/-! ## Claim C7 -/

/-- Claim C7: the content hash of a row depends only on the values of the
ordered business columns: two rows agreeing on every business column hash
identically for any digest function, regardless of any other column or of
the order columns appear in the row, and the new or updated
classification computed by the diff loop is unchanged as well. -/
theorem c7_hash_locality (H : String → String) (cols : List String) (r1 r2 : Row)
    (h : ∀ c ∈ cols, rowGet r1 c = rowGet r2 c) :
    hash_row H r1 cols = hash_row H r2 cols
      ∧ ∀ (st : StateTab) (pk : String),
        diffNew st [(pk, hash_row H r1 cols)] = diffNew st [(pk, hash_row H r2 cols)]
          ∧ diffUpdated st [(pk, hash_row H r1 cols)]
            = diffUpdated st [(pk, hash_row H r2 cols)] := by
  have hh : hashInput r1 cols = hashInput r2 cols := by
    unfold hashInput
    rw [List.map_congr_left h]
  have heq : hash_row H r1 cols = hash_row H r2 cols := by
    unfold hash_row
    rw [hh]
  exact ⟨heq, fun st pk => by rw [heq]; exact ⟨rfl, rfl⟩⟩

/-- Claim C7 witness: two concrete rows with equal business columns but a
different audit column and a different column order hash identically over
the casps business columns. -/
theorem c7_witness :
    (∀ c ∈ caspBusinessCols,
      rowGet [("ae_competent_authority", "BaFin"), ("ae_home_member_state", "Germany"),
        ("ae_lei_name", "AlphaCo"), ("ae_website", "https://a.example"),
        ("ac_service_code_short", "custody"),
        ("ac_authorisation_notification_date", "2024-01-01"),
        ("ac_authorisation_end_date", "None"), ("ac_lastupdate", "2024-01-02"),
        ("raw_note", "x")] c
        = rowGet [("ae_home_member_state", "Germany"),
          ("ae_competent_authority", "BaFin"), ("ae_lei_name", "AlphaCo"),
          ("ae_website", "https://a.example"), ("ac_service_code_short", "custody"),
          ("ac_authorisation_notification_date", "2024-01-01"),
          ("ac_authorisation_end_date", "None"), ("ac_lastupdate", "2024-01-02"),
          ("raw_note", "y"), ("raw_extra", "z")] c)
      ∧ hash_row (fun s => s)
          [("ae_competent_authority", "BaFin"), ("ae_home_member_state", "Germany"),
            ("ae_lei_name", "AlphaCo"), ("ae_website", "https://a.example"),
            ("ac_service_code_short", "custody"),
            ("ac_authorisation_notification_date", "2024-01-01"),
            ("ac_authorisation_end_date", "None"), ("ac_lastupdate", "2024-01-02"),
            ("raw_note", "x")] caspBusinessCols
        = hash_row (fun s => s)
          [("ae_home_member_state", "Germany"), ("ae_competent_authority", "BaFin"),
            ("ae_lei_name", "AlphaCo"), ("ae_website", "https://a.example"),
            ("ac_service_code_short", "custody"),
            ("ac_authorisation_notification_date", "2024-01-01"),
            ("ac_authorisation_end_date", "None"), ("ac_lastupdate", "2024-01-02"),
            ("raw_note", "y"), ("raw_extra", "z")] caspBusinessCols :=
  ⟨by decide, (c7_hash_locality (fun s => s) caspBusinessCols _ _ (by decide)).1⟩

/-! ## Claim C8 -/

theorem normCountryCasp_collapse (x y : String) (h : pyUpper x = pyUpper y) :
    pyUpper (normCountryCasp x) = pyUpper (normCountryCasp y) := by
  unfold normCountryCasp
  rw [h]
  cases hl : lookupKey COUNTRY_MAP (pyUpper y) with
  | some n => simp [hl]
  | none => simpa [hl] using h

theorem normalise_country_collapse (x y : String) (h : pyUpper x = pyUpper y) :
    pyUpper (normalise_country x) = pyUpper (normalise_country y) := by
  unfold normalise_country
  rw [h]
  by_cases hc : (pyUpper y = "" ∨ pyUpper y = "NAN" ∨ pyUpper y = "NONE"
      ∨ pyUpper y = "NULL")
  · simp [hc]
  · simp only [hc, if_false]
    cases hl : lookupKey COUNTRY_MAP (pyUpper y) with
    | some n => simp [hl]
    | none => simpa [hl] using h

/-- Claim C8, counterexample: the jurisdiction code is mapped to the full
country name before the identity key is built, so the row with
jurisdiction DE, authority BaFin and entity AlphaCo gets the key
GERMANY|bafin|alphaco in both pipelines, not DE|bafin|alphaco. -/
theorem c8_counterexample :
    (normalizeCaspRow (fun s => s) (fun _ => none)
        ⟨"BaFin", "DE", "AlphaCo", "https://a.example", "a. Custody", "", "", ""⟩).pk
        = "GERMANY|bafin|alphaco"
      ∧ (normalizeCaspRow (fun s => s) (fun _ => none)
          ⟨"BaFin", "DE", "AlphaCo", "https://a.example", "a. Custody", "", "", ""⟩).pk
        ≠ "DE|bafin|alphaco"
      ∧ (normalize_non_compliant_row (fun s => s)
          ⟨some "BaFin", some "DE", some "AlphaCo", some "w", none⟩).map NCCanon.pk
        = some "GERMANY|bafin|alphaco" := by
  exact ⟨by decide, by decide, by decide⟩

/-- Claim C8, amended: the identity key is the uppercased normalized
jurisdiction value (the full country name when the code is in the lookup
table, the code itself otherwise), the lowercased authority and the
lowercased entity name joined by the pipe delimiter, so DE, BaFin,
AlphaCo yields GERMANY|bafin|alphaco; rows whose trimmed jurisdiction,
authority and entity values agree up to letter case collapse to the same
identity key in both pipelines. -/
theorem c8_amended :
    ((normalizeCaspRow (fun s => s) (fun _ => none)
        ⟨"BaFin", "DE", "AlphaCo", "https://a.example", "a. Custody", "", "", ""⟩).pk
        = "GERMANY|bafin|alphaco")
      ∧ (∀ (H H2 : String → String) (pd pd2 : String → Option String)
          (r1 r2 : CaspRaw),
          pyUpper (pyStrip r1.home_member_state)
            = pyUpper (pyStrip r2.home_member_state) →
          pyLower (pyStrip r1.competent_authority)
            = pyLower (pyStrip r2.competent_authority) →
          pyLower (pyStrip r1.lei_name) = pyLower (pyStrip r2.lei_name) →
          (normalizeCaspRow H pd r1).pk = (normalizeCaspRow H2 pd2 r2).pk)
      ∧ (∀ (H : String → String) (r : NCRaw) (c : NCCanon),
          normalize_non_compliant_row H r = some c → c.pk = ncPk r)
      ∧ (∀ r1 r2 : NCRaw,
          pyUpper (pyStrip (pyStr r1.home_member_state))
            = pyUpper (pyStrip (pyStr r2.home_member_state)) →
          pyLower (pyStrip (pyStr r1.competent_authority))
            = pyLower (pyStrip (pyStr r2.competent_authority)) →
          pyLower (pyStrip (pyStr r1.lei_name))
            = pyLower (pyStrip (pyStr r2.lei_name)) →
          ncPk r1 = ncPk r2) := by
  have hpk : ∀ (H : String → String) (pd : String → Option String) (r : CaspRaw),
      (normalizeCaspRow H pd r).pk
        = mkPk (normCountryCasp (pyStrip r.home_member_state))
          (pyStrip r.competent_authority) (pyStrip r.lei_name) := fun _ _ _ => rfl
  refine ⟨by decide, ?_, ?_, ?_⟩
  · intro H H2 pd pd2 r1 r2 h1 h2 h3
    rw [hpk, hpk]
    unfold mkPk
    rw [normCountryCasp_collapse _ _ h1, h2, h3]
  · intro H r c hc
    unfold normalize_non_compliant_row at hc
    by_cases hl : pyStrip (pyStr r.lei_name) = ""
    · simp only [hl, if_true] at hc
      exact Option.noConfusion hc
    · simp only [hl, if_false] at hc
      rw [← Option.some.inj hc]
      rfl
  · intro r1 r2 h1 h2 h3
    unfold ncPk mkPk
    rw [normalise_country_collapse _ _ h1, h2, h3]

/-- Claim C8 witness: case variants of the same row collapse to one key. -/
theorem c8_witness :
    (pyUpper (pyStrip "  de ") = pyUpper (pyStrip "DE")
      ∧ pyLower (pyStrip "BAFIN") = pyLower (pyStrip "BaFin")
      ∧ pyLower (pyStrip "alphaCO") = pyLower (pyStrip "AlphaCo"))
      ∧ (normalizeCaspRow (fun s => s) (fun _ => none)
          ⟨"BAFIN", "  de ", "alphaCO", "w", "", "", "", ""⟩).pk
        = (normalizeCaspRow pyUpper (fun _ => some "2024-01-01")
          ⟨"BaFin", "DE", "AlphaCo", "w2", "b. Trading", "d", "d", "d"⟩).pk :=
  ⟨⟨by decide, by decide, by decide⟩,
    c8_amended.2.1 (fun s => s) pyUpper (fun _ => none)
      (fun _ => some "2024-01-01")
      ⟨"BAFIN", "  de ", "alphaCO", "w", "", "", "", ""⟩
      ⟨"BaFin", "DE", "AlphaCo", "w2", "b. Trading", "d", "d", "d"⟩
      (by decide) (by decide) (by decide)⟩

/-! ## Claim C10 -/

/-- Claim C10: in the non_compliant normalization a missing (NaN) entity
name is not dropped: astype(str) renders it as the literal string nan, so
the row is kept with entity name nan and an identity key ending in nan;
a row is dropped exactly when its entity name is the empty string after
trimming. -/
theorem c10_nan_entity (H : String → String) (r : NCRaw) :
    (normalize_non_compliant_row H r = none ↔ pyStrip (pyStr r.lei_name) = "")
      ∧ (r.lei_name = none →
          ∃ c, normalize_non_compliant_row H r = some c
            ∧ c.lei_name = "nan"
            ∧ c.pk = mkPk
                (normalise_country (pyStrip (pyStr r.home_member_state)))
                (pyStrip (pyStr r.competent_authority)) "nan") := by
  constructor
  · by_cases hl : pyStrip (pyStr r.lei_name) = "" <;>
      simp [normalize_non_compliant_row, hl]
  · intro hnone
    have hnan : pyStrip (pyStr r.lei_name) = "nan" := by
      rw [hnone]
      rfl
    have hne : ¬ (pyStrip (pyStr r.lei_name) = "") := by
      rw [hnan]
      decide
    unfold normalize_non_compliant_row
    rw [if_neg hne]
    refine ⟨_, rfl, hnan, ?_⟩
    show mkPk (normalise_country (pyStrip (pyStr r.home_member_state)))
      (pyStrip (pyStr r.competent_authority)) (pyStrip (pyStr r.lei_name)) = _
    rw [hnan]

/-- Claim C10 witness: a concrete row with a NaN entity name is retained
with entity name nan and a key ending in nan. -/
theorem c10_witness :
    (normalize_non_compliant_row (fun s => s)
        ⟨some "BaFin", some "DE", none, some "w", none⟩ = none
      ↔ pyStrip (pyStr (none : Option String)) = "")
      ∧ ∃ c, normalize_non_compliant_row (fun s => s)
          ⟨some "BaFin", some "DE", none, some "w", none⟩ = some c
        ∧ c.lei_name = "nan"
        ∧ c.pk = mkPk (normalise_country (pyStrip (pyStr (some "DE"))))
            (pyStrip (pyStr (some "BaFin"))) "nan" :=
  ⟨(c10_nan_entity (fun s => s) ⟨some "BaFin", some "DE", none, some "w", none⟩).1,
    (c10_nan_entity (fun s => s) ⟨some "BaFin", some "DE", none, some "w", none⟩).2 rfl⟩

end Micar
